import Mathlib

/-!
Shallow embedding of the ingestion pipeline of `light.py` (UP Lightning
Tracker): the record filter `filter_up_data`, the table router
`get_active_table` / `create_new_table`, the ingestion writer
`push_data_to_db`, and the dashboard read query built in `main`.

Python floats and MySQL DECIMAL values are modelled as rationals; raw JSON
field values are modelled by `JVal`, which records whether the value parses
as a number (`float(...)` / `int(...)` / `strptime(...)` succeeding) or
raises (`invalid`).  A raised Python exception is modelled by `Option`:
`none` is a propagated exception.
-/

namespace UpLight

/-- A raw JSON field value: either a value that parses to the rational `q`
(a JSON number, a numeric string, or a well-formed datetime string denoting
timestamp `q`), or a string on which the Python conversion raises. -/
inductive JVal where
  | num (q : ℚ)
  | invalid
deriving DecidableEq

/-- `float(v)`: `some` of the parsed value, `none` when Python raises. -/
def parseFloat : JVal → Option ℚ
  | .num q => some q
  | .invalid => none

/-- `int(v)`: parses only integral values, `none` when Python raises. -/
def parseInt : JVal → Option ℤ
  | .num q => if q.den = 1 then some q.num else none
  | .invalid => none

/-- `datetime.strptime(v, '%Y-%m-%d %H:%M:%S')`: the datetime is modelled
as the rational timestamp it denotes; `none` when Python raises. -/
def parseTime : JVal → Option ℚ
  | .num q => some q
  | .invalid => none

/-- One element of the API payload's `10min_record` list, fields as in the
inbound API shape of `light.py`. -/
structure RawRecord where
  latitude : JVal
  longitude : JVal
  time : JVal
  flash_type : JVal
  peak_current : JVal
  ic_height : JVal
  number_of_sensors : JVal
deriving DecidableEq

/-- The decoded API payload as seen by `filter_up_data`: `null` is a falsy
payload (`None` or the empty dict), otherwise an object whose
`lightning_data` key may be absent, and whose `10min_record` key inside it
may be absent. -/
inductive Payload where
  | null
  | obj (lightning_data : Option (Option (List RawRecord)))
deriving DecidableEq

/-- The bounding-box test of one record, with Python's evaluation order:
`min_lat <= float(record['latitude']) <= max_lat and min_lon <=
float(record['longitude']) <= max_lon`.  `float(latitude)` is evaluated
first; if the chained latitude comparison is false, `and` short-circuits
and `float(longitude)` is never evaluated.  `none` models a raised
`ValueError`. -/
def bboxCheck (r : RawRecord) : Option Bool :=
  match parseFloat r.latitude with
  | none => none
  | some la =>
    if 24 ≤ la ∧ la ≤ 28 then
      match parseFloat r.longitude with
      | none => none
      | some lo => some (decide (77 ≤ lo ∧ lo ≤ 84))
    else
      some false

/-- The list comprehension inside `filter_up_data`, evaluated left to
right; an exception at any record aborts the whole comprehension. -/
def filterRecords : List RawRecord → Option (List RawRecord)
  | [] => some []
  | r :: rs =>
    match bboxCheck r with
    | none => none
    | some b =>
      match filterRecords rs with
      | none => none
      | some rest => some (if b then r :: rest else rest)

/-- `filter_up_data` from `light.py`: returns `[]` when the payload is
falsy or either expected key is absent, otherwise the bounding-box
comprehension over `records['lightning_data']['10min_record']`. -/
def filter_up_data : Payload → Option (List RawRecord)
  | .null => some []
  | .obj none => some []
  | .obj (some none) => some []
  | .obj (some (some rs)) => filterRecords rs

/-- Spec-side description of membership in the inclusive bounding box
(min_lat=24, max_lat=28, min_lon=77, max_lon=84), for comparison with the
source-side `filter_up_data`. -/
def inBox (r : RawRecord) : Bool :=
  match parseFloat r.latitude, parseFloat r.longitude with
  | some la, some lo => decide (24 ≤ la ∧ la ≤ 28 ∧ 77 ≤ lo ∧ lo ≤ 84)
  | _, _ => false

/-- One persisted row of a shard table (the `id` auto-increment column is
omitted; it plays no role in the claims). -/
structure Row where
  latitude : ℚ
  longitude : ℚ
  time : ℚ
  flash_type : JVal
  peak_current : ℚ
  ic_height : ℚ
  number_of_sensors : ℤ
deriving DecidableEq

/-- The committed database state: the shard tables matching
`lightning_data%`, each a shard name (the zero-padded timestamp suffix,
modelled as a natural number whose numeric order is the lexicographic
order of the suffixed names) paired with its rows. -/
structure DBState where
  shards : List (Nat × List Row)
deriving DecidableEq

/-- The shard names, as listed by `SHOW TABLES LIKE 'lightning_data%'`. -/
def shardNames (db : DBState) : List Nat :=
  db.shards.map Prod.fst

/-- The rows of shard `nm` (empty if no such shard). -/
def getTable (db : DBState) (nm : Nat) : List Row :=
  match db.shards.find? (fun s => decide (s.1 = nm)) with
  | some s => s.2
  | none => []

/-- `SELECT COUNT(*) FROM nm`. -/
def rowCount (db : DBState) (nm : Nat) : Nat :=
  (getTable db nm).length

/-- Replace the rows of shard `nm`. -/
def setTable (db : DBState) (nm : Nat) (rows : List Row) : DBState :=
  ⟨db.shards.map (fun s => if s.1 = nm then (nm, rows) else s)⟩

/-- `create_new_table` from `light.py`: `CREATE TABLE IF NOT EXISTS`, so an
existing table of the same name is left untouched. -/
def create_new_table (db : DBState) (nm : Nat) : DBState :=
  if nm ∈ shardNames db then db else ⟨db.shards ++ [(nm, [])]⟩

/-- `sorted(tables, reverse=True)`: the shard names in descending order. -/
def sortDesc (l : List Nat) : List Nat :=
  l.insertionSort (· ≥ ·)

/-- `get_active_table` from `light.py`, with the current clock reading
passed as `now`: scan the shard names in descending order and return the
first with fewer than 50000 rows; otherwise run `create_new_table` on the
name derived from `now` and return that name.  The returned pair is the
database state after the call (a table may have been created) and the
returned table name. -/
def get_active_table (db : DBState) (now : Nat) : DBState × Nat :=
  match (sortDesc (shardNames db)).find? (fun nm => decide (rowCount db nm < 50000)) with
  | some nm => (db, nm)
  | none => (create_new_table db now, now)

/-- The uniqueness key of a row: the triple (latitude, longitude, time)
backing the `UNIQUE KEY unique_strike` constraint. -/
def keyOf (w : Row) : ℚ × ℚ × ℚ :=
  (w.latitude, w.longitude, w.time)

/-- Whether two rows collide on the uniqueness constraint. -/
def sameKey (a b : Row) : Bool :=
  decide (keyOf a = keyOf b)

/-- The number of rows of `t` holding the key `k`. -/
def countKey (t : List Row) (k : ℚ × ℚ × ℚ) : Nat :=
  (t.filter (fun x => decide (keyOf x = k))).length

/-- `INSERT IGNORE` of one row into a table carrying the uniqueness
constraint on (latitude, longitude, time): a no-op when a row with the
same key exists; the returned flag is `c.rowcount > 0`. -/
def insertIgnore (t : List Row) (w : Row) : List Row × Bool :=
  if t.any (fun x => sameKey x w) then (t, false) else (t ++ [w], true)

/-- Conversion of one raw record to the row passed to `INSERT`: the
Python argument tuple evaluates `float(latitude)`, `float(longitude)`,
`strptime(time)`, `float(peak_current)`, `float(ic_height)` and
`int(number_of_sensors)`; `none` models any of them raising.
`flash_type` is passed through unconverted. -/
def parseRecord (r : RawRecord) : Option Row :=
  match parseFloat r.latitude, parseFloat r.longitude, parseTime r.time,
      parseFloat r.peak_current, parseFloat r.ic_height, parseInt r.number_of_sensors with
  | some la, some lo, some tm, some pc, some ic, some ns =>
      some ⟨la, lo, tm, r.flash_type, pc, ic, ns⟩
  | _, _, _, _, _, _ => none

/-- Outcome of the insertion loop of `push_data_to_db`: `done` when every
record was processed (the transaction will be committed), `dbErr` when a
`mysql.connector.Error` was raised at some `execute` (caught by the
`except` clause: the accumulated `new_records` list is still returned but
the transaction is never committed), `parseErr` when a Python conversion
raised (uncaught: it propagates out of `push_data_to_db`). -/
inductive LoopOut where
  | done (t : List Row) (newRecs : List RawRecord)
  | dbErr (newRecs : List RawRecord)
  | parseErr
deriving DecidableEq

/-- The `for record in up_records` loop of `push_data_to_db`, working on
the transaction-local view `t` of the active table.  `errs` is the oracle
of storage faults: its head tells whether the next `execute` raises a
`mysql.connector.Error`. -/
def insertLoop (t : List Row) (acc : List RawRecord) (errs : List Bool) :
    List RawRecord → LoopOut
  | [] => .done t acc
  | r :: rs =>
    match parseRecord r with
    | none => .parseErr
    | some w =>
      if errs.headD false then .dbErr acc
      else
        match insertIgnore t w with
        | (t2, inserted) =>
          insertLoop t2 (if inserted then acc ++ [r] else acc) errs.tail rs

/-- Result of `push_data_to_db`: `ok` carries the committed database state
after the call and the returned `new_records` list; `pyError` models the
uncaught Python exception of a failed conversion (the connection is closed
by `finally`, rolling back the uncommitted inserts). -/
inductive PushResult where
  | ok (db : DBState) (newRecords : List RawRecord)
  | pyError (db : DBState)
deriving DecidableEq

/-- The fault environment of one `push_data_to_db` call: whether
`connect_db` succeeds, whether `get_active_table` completes without a
storage error, and the per-`execute` fault oracle. -/
structure Env where
  connOk : Bool
  routerOk : Bool
  insertErrs : List Bool
deriving DecidableEq

/-- `push_data_to_db` from `light.py`.  Failure to connect or to resolve
the active table returns `[]` with the state unchanged.  Otherwise the
records are inserted with `INSERT IGNORE` into the active table inside a
single transaction: on completion `conn.commit()` persists the inserts;
on a caught storage error the accumulated `new_records` are returned but
`conn.close()` rolls the inserts back (table creation by the router was
already committed); on an uncaught conversion error the exception
propagates, likewise rolling the inserts back. -/
def push_data_to_db (env : Env) (db : DBState) (now : Nat)
    (up_records : List RawRecord) : PushResult :=
  if env.connOk = false then .ok db []
  else if env.routerOk = false then .ok db []
  else
    match insertLoop (getTable (get_active_table db now).1 (get_active_table db now).2)
        [] env.insertErrs up_records with
    | .done t2 newRecs =>
        .ok (setTable (get_active_table db now).1 (get_active_table db now).2 t2) newRecs
    | .dbErr newRecs => .ok (get_active_table db now).1 newRecs
    | .parseErr => .pyError (get_active_table db now).1

/-- The time-window predicate `time >= DATE_SUB(NOW(), INTERVAL w)` of the
dashboard query; `none` is the "All Time" choice (no `WHERE` clause). -/
def timePred (win : Option ℚ) (nowT : ℚ) (x : Row) : Bool :=
  match win with
  | none => true
  | some w => decide (nowT - w ≤ x.time)

/-- Row source of the SQL string built in `main`: the `SELECT * FROM t`
clauses joined by `UNION ALL`, with the `WHERE` clause appended after the
join — so, per SQL grammar, the `WHERE` belongs to the last `SELECT`
only, and rows of every earlier shard bypass the time filter. -/
def unionRows (shards : List (Nat × List Row)) (p : Row → Bool) : List Row :=
  match shards with
  | [] => []
  | [s] => s.2.filter p
  | s :: rest => s.2 ++ unionRows rest p

/-- `ORDER BY time DESC` over the union. -/
def sortTimeDesc (l : List Row) : List Row :=
  l.insertionSort (fun a b => b.time ≤ a.time)

/-- The dashboard read query of `main`: union of all shards (with the
`WHERE` clause attached to the last `SELECT` when a window is chosen),
ordered by time descending, `LIMIT 1000`. -/
def mainQuery (db : DBState) (win : Option ℚ) (nowT : ℚ) : List Row :=
  (sortTimeDesc (unionRows db.shards (timePred win nowT))).take 1000

/-- A record inside the bounding box (lat 26, lon 80). -/
def recIn : RawRecord := ⟨.num 26, .num 80, .num 1000, .num 7, .num 12, .num 3, .num 1⟩

/-- A record exactly on the box boundary (lat 24, lon 80). -/
def recBd : RawRecord := ⟨.num 24, .num 80, .num 1001, .num 7, .num 12, .num 3, .num 1⟩

/-- A record outside the bounding box (lat 10, lon 80). -/
def recOut : RawRecord := ⟨.num 10, .num 80, .num 1002, .num 7, .num 12, .num 3, .num 1⟩

/-- A record whose latitude does not parse as a float. -/
def recBadLat : RawRecord := ⟨.invalid, .num 80, .num 1003, .num 7, .num 12, .num 3, .num 1⟩

/-- A record whose latitude (10) is outside the box and whose longitude
does not parse as a float. -/
def recSwallow : RawRecord := ⟨.num 10, .invalid, .num 1004, .num 7, .num 12, .num 3, .num 1⟩

/-- The three-record demo payload of the spec scenario. -/
def rsDemo : List RawRecord := [recIn, recBd, recOut]

/-- The fault-free environment: connection succeeds, the router hits no
storage error, and no `execute` raises. -/
def envOk : Env := ⟨true, true, []⟩

/-- A well-formed in-box record with key (25, 80, 60000). -/
def ra0 : RawRecord := ⟨.num 25, .num 80, .num 60000, .num 7, .num 12, .num 3, .num 1⟩

/-- A well-formed in-box record with key (25, 80, 60001). -/
def rb0 : RawRecord := ⟨.num 25, .num 80, .num 60001, .num 7, .num 12, .num 3, .num 1⟩

/-- A record sharing the key of `ra0` but with a different sensor count. -/
def ra0s : RawRecord := ⟨.num 25, .num 80, .num 60000, .num 7, .num 12, .num 3, .num 2⟩

/-- The row `ra0s` converts to. -/
def rowA0s : Row := ⟨25, 80, 60000, .num 7, 12, 3, 2⟩

/-- The row `ra0` converts to. -/
def rowA0 : Row := ⟨25, 80, 60000, .num 7, 12, 3, 1⟩

/-- The row `rb0` converts to. -/
def rowB0 : Row := ⟨25, 80, 60001, .num 7, 12, 3, 1⟩

/-- A reference row at time `i`, key (25, 80, i). -/
def mkRow (i : Nat) : Row := ⟨25, 80, (i : ℚ), .num 7, 12, 3, 1⟩

/-- `n` rows with pairwise distinct keys (25, 80, 0) … (25, 80, n-1). -/
def baseRows (n : Nat) : List Row := (List.range n).map mkRow

/-- A stale row (time 0) used for the dashboard-query counterexample. -/
def rowOld : Row := ⟨26, 80, 0, .num 7, 12, 3, 1⟩

/-- A fresh row (time 95) inside the last-hour window at `nowT = 100`. -/
def rowNew : Row := ⟨26, 80, 95, .num 7, 12, 3, 1⟩

/-- Two shards: the older one holds the stale row, the newer the fresh
row; the dashboard query's `WHERE` clause lands on the newer one only. -/
def dbWin : DBState := ⟨[(0, [rowOld]), (1, [rowNew])]⟩

/-- Helper: `filterRecords` returns exactly the in-box records when all
coordinates parse. -/
theorem filterRecords_eq_filter (rs : List RawRecord)
    (h : ∀ r ∈ rs, (parseFloat r.latitude).isSome ∧ (parseFloat r.longitude).isSome) :
    filterRecords rs = some (rs.filter inBox) := by
  induction rs with
  | nil => rfl
  | cons r rs ih =>
    obtain ⟨hla, hlo⟩ := h r (List.mem_cons_self r rs)
    obtain ⟨la, hla2⟩ := Option.isSome_iff_exists.mp hla
    obtain ⟨lo, hlo2⟩ := Option.isSome_iff_exists.mp hlo
    have hrest := ih (fun x hx => h x (List.mem_cons_of_mem _ hx))
    by_cases h24 : 24 ≤ la ∧ la ≤ 28
    · have hbb : bboxCheck r = some (decide (77 ≤ lo ∧ lo ≤ 84)) := by
        simp [bboxCheck, hla2, hlo2, h24]
      have hib : inBox r = decide (24 ≤ la ∧ la ≤ 28 ∧ 77 ≤ lo ∧ lo ≤ 84) := by
        simp [inBox, hla2, hlo2]
      by_cases hlon : 77 ≤ lo ∧ lo ≤ 84
      · simp [filterRecords, hbb, hrest, List.filter_cons, hib, h24.1, h24.2, hlon.1, hlon.2]
      · simp [filterRecords, hbb, hrest, List.filter_cons, hib, hlon]
    · have hbb : bboxCheck r = some false := by
        simp [bboxCheck, hla2, h24]
      have hib : inBox r = false := by
        simp only [inBox, hla2, hlo2]
        simp only [decide_eq_false_iff_not]
        intro hc
        exact h24 ⟨hc.1, hc.2.1⟩
      simp [filterRecords, hbb, hrest, List.filter_cons, hib]

/-- C2: for every payload with the expected keys whose coordinates all
parse as floats, `filter_up_data` returns exactly the records whose
latitude and longitude both lie within the inclusive bounding box
min_lat=24, max_lat=28, min_lon=77, max_lon=84; boundary records are
included and records with a coordinate outside the box are excluded. -/
theorem filter_up_data_bbox (rs : List RawRecord)
    (h : ∀ r ∈ rs, (parseFloat r.latitude).isSome ∧ (parseFloat r.longitude).isSome) :
    filter_up_data (.obj (some (some rs))) = some (rs.filter inBox) :=
  filterRecords_eq_filter rs h

/-- C2 witness: of the spec's three records — one strictly inside the box,
one exactly on the lat=24 boundary, one outside — exactly the first two
are returned, the boundary record included. -/
theorem filter_up_data_bbox_witness :
    filter_up_data (.obj (some (some rsDemo))) = some (rsDemo.filter inBox) ∧
    rsDemo.filter inBox = [recIn, recBd] :=
  ⟨filter_up_data_bbox rsDemo (by decide), by decide⟩

/-- C8: for every payload in which the expected keys are absent — the
falsy payload (`None` or the empty dict), an object without
`lightning_data`, or one whose `lightning_data` lacks `10min_record` —
`filter_up_data` returns the empty sequence without raising. -/
theorem filter_up_data_missing_keys :
    filter_up_data Payload.null = some [] ∧
    filter_up_data (Payload.obj none) = some [] ∧
    filter_up_data (Payload.obj (some none)) = some [] :=
  ⟨rfl, rfl, rfl⟩

/-- C9: for every well-formed payload, the filter output is an
order-preserving subsequence of the input list
`lightning_data['10min_record']`: each output element is an unmodified
input record and relative order is preserved. -/
theorem filter_up_data_sublist (rs out : List RawRecord)
    (h : filter_up_data (.obj (some (some rs))) = some out) : out.Sublist rs := by
  have key : ∀ rs out : List RawRecord, filterRecords rs = some out → out.Sublist rs := by
    intro rs
    induction rs with
    | nil =>
      intro out h
      simp only [filterRecords, Option.some.injEq] at h
      simp [← h]
    | cons r rs ih =>
      intro out h
      unfold filterRecords at h
      cases hbb : bboxCheck r with
      | none => rw [hbb] at h; exact absurd h (by simp)
      | some b =>
        rw [hbb] at h
        cases hrec : filterRecords rs with
        | none => rw [hrec] at h; exact absurd h (by simp)
        | some rest =>
          rw [hrec] at h
          simp only [Option.some.injEq] at h
          subst h
          cases b with
          | false => simpa using (ih rest hrec).cons r
          | true => simpa using (ih rest hrec).cons₂ r
  exact key rs out h

/-- C9 witness: the filtered demo payload is a subsequence of the input. -/
theorem filter_up_data_sublist_witness :
    List.Sublist [recIn, recBd] rsDemo :=
  filter_up_data_sublist rsDemo [recIn, recBd] (by decide)

/-- C7 counterexample: a record whose longitude is an invalid numeric
string is silently dropped — no parse failure propagates — because the
latitude (10) already fails the chained comparison and Python's `and`
short-circuits before `float(longitude)` is evaluated. -/
theorem filter_swallow_counterexample :
    recSwallow.longitude = JVal.invalid ∧
    filter_up_data (.obj (some (some [recSwallow]))) = some [] :=
  ⟨rfl, by decide⟩

/-- C7 amended: a parse failure propagates exactly when a record's
latitude is invalid, or its latitude parses within [24, 28] and its
longitude is invalid; earlier records must themselves evaluate without
raising.  (A record whose latitude parses to a value outside [24, 28]
never evaluates its longitude, so an invalid longitude there is silently
swallowed.) -/
theorem filter_parse_propagation (l1 l2 : List RawRecord) (r : RawRecord)
    (hok : ∀ x ∈ l1, (bboxCheck x).isSome)
    (hbad : r.latitude = JVal.invalid ∨
      ∃ la, r.latitude = JVal.num la ∧ 24 ≤ la ∧ la ≤ 28 ∧ r.longitude = JVal.invalid) :
    filter_up_data (.obj (some (some (l1 ++ r :: l2)))) = none := by
  have hr : bboxCheck r = none := by
    rcases hbad with h | ⟨la, h1, h2, h3, h4⟩
    · simp [bboxCheck, h, parseFloat]
    · simp [bboxCheck, h1, h4, parseFloat, h2, h3]
  have key : ∀ l1 : List RawRecord, (∀ x ∈ l1, (bboxCheck x).isSome) →
      filterRecords (l1 ++ r :: l2) = none := by
    intro l1
    induction l1 with
    | nil => intro _; simp [filterRecords, hr]
    | cons x xs ih =>
      intro hok2
      obtain ⟨b, hb⟩ := Option.isSome_iff_exists.mp (hok2 x (List.mem_cons_self x xs))
      simp [filterRecords, hb, ih (fun y hy => hok2 y (List.mem_cons_of_mem x hy))]
  exact key l1 hok

/-- C7 amended witness: a record with an unparseable latitude makes the
filter propagate the failure. -/
theorem filter_parse_propagation_witness :
    filter_up_data (.obj (some (some [recBadLat]))) = none :=
  filter_parse_propagation [] [] recBadLat (by simp) (Or.inl rfl)

/-- Helper: `sortDesc` output is descending. -/
theorem sortDesc_sorted (l : List Nat) : (sortDesc l).Pairwise (· ≥ ·) :=
  List.sorted_insertionSort (· ≥ ·) l

/-- Helper: `sortDesc` preserves membership. -/
theorem mem_sortDesc {l : List Nat} {a : Nat} : a ∈ sortDesc l ↔ a ∈ l :=
  List.mem_insertionSort (· ≥ ·)

/-- Helper: on a descending list, `find?` returns `n` when `n` satisfies
the predicate and every strictly larger member fails it. -/
theorem find?_first_of_sorted (l : List Nat) (p : Nat → Bool) (n : Nat)
    (hs : l.Pairwise (· ≥ ·)) (hmem : n ∈ l) (hp : p n = true)
    (hbig : ∀ m ∈ l, n < m → p m = false) : l.find? p = some n := by
  induction l with
  | nil => cases hmem
  | cons a t ih =>
    rw [List.pairwise_cons] at hs
    cases hpa : p a with
    | true =>
      have han : a = n := by
        rcases List.mem_cons.mp hmem with rfl | hnt
        · rfl
        · have hle : n ≤ a := hs.1 n hnt
          rcases eq_or_lt_of_le hle with heq | hlt
          · exact heq.symm
          · have := hbig a (List.mem_cons_self a t) hlt
            rw [hpa] at this
            cases this
      rw [List.find?_cons_of_pos _ hpa, han]
    | false =>
      have hnt : n ∈ t := by
        rcases List.mem_cons.mp hmem with rfl | hnt
        · rw [hp] at hpa; cases hpa
        · exact hnt
      rw [List.find?_cons_of_neg _ (by simp [hpa])]
      exact ih hs.2 hnt (fun m hm hlt => hbig m (List.mem_cons_of_mem _ hm) hlt)

/-- Helper: on a descending list, everything strictly larger than the
element found by `find?` fails the predicate. -/
theorem find?_sorted_big (l : List Nat) (p : Nat → Bool) (n : Nat)
    (hs : l.Pairwise (· ≥ ·)) (hf : l.find? p = some n) :
    ∀ m ∈ l, n < m → p m = false := by
  induction l with
  | nil => intro m hm; cases hm
  | cons a t ih =>
    rw [List.pairwise_cons] at hs
    intro m hm hlt
    cases hpa : p a with
    | true =>
      rw [List.find?_cons_of_pos _ hpa] at hf
      have han : a = n := by injection hf
      rcases List.mem_cons.mp hm with rfl | hmt
      · exact absurd hlt (by rw [han]; exact lt_irrefl n)
      · have hle : m ≤ a := hs.1 m hmt
        rw [han] at hle
        exact absurd hlt (not_lt.mpr hle)
    | false =>
      rw [List.find?_cons_of_neg _ (by simp [hpa])] at hf
      rcases List.mem_cons.mp hm with rfl | hmt
      · exact hpa
      · exact ih hs.2 hf m hmt hlt

/-- Helper: a name absent from the shard list has the empty table. -/
theorem getTable_not_mem (db : DBState) (nm : Nat) (h : nm ∉ shardNames db) :
    getTable db nm = [] := by
  unfold getTable
  have hf : db.shards.find? (fun s => decide (s.1 = nm)) = none := by
    rw [List.find?_eq_none]
    intro s hs
    simp only [decide_eq_true_eq]
    intro heq
    exact h (heq ▸ List.mem_map_of_mem Prod.fst hs)
  rw [hf]

/-- Helper: `create_new_table` on an existing name is a no-op. -/
theorem create_of_mem (db : DBState) (now : Nat) (h : now ∈ shardNames db) :
    create_new_table db now = db := by
  simp [create_new_table, h]

/-- Helper: names after creating a fresh shard. -/
theorem shardNames_create_fresh (db : DBState) (now : Nat) (h : now ∉ shardNames db) :
    shardNames (create_new_table db now) = shardNames db ++ [now] := by
  unfold create_new_table
  rw [if_neg h]
  simp [shardNames]

/-- Helper: table lookup for names other than the created one. -/
theorem getTable_create_ne (db : DBState) (now m : Nat) (h : m ≠ now) :
    getTable (create_new_table db now) m = getTable db m := by
  unfold create_new_table
  by_cases hmem : now ∈ shardNames db
  · rw [if_pos hmem]
  · rw [if_neg hmem]
    unfold getTable
    rw [List.find?_append]
    have h2 : List.find? (fun s => decide (s.1 = m)) [((now : Nat), ([] : List Row))] = none := by
      simp [List.find?, Ne.symm h]
    rw [h2]
    cases db.shards.find? (fun s => decide (s.1 = m)) <;> rfl

/-- Helper: the freshly created shard is empty. -/
theorem getTable_create_self_fresh (db : DBState) (now : Nat) (h : now ∉ shardNames db) :
    getTable (create_new_table db now) now = [] := by
  unfold create_new_table
  rw [if_neg h]
  unfold getTable
  rw [List.find?_append]
  have h1 : db.shards.find? (fun s => decide (s.1 = now)) = none := by
    rw [List.find?_eq_none]
    intro s hs
    simp only [decide_eq_true_eq]
    intro heq
    exact h (heq ▸ List.mem_map_of_mem Prod.fst hs)
  have h2 : List.find? (fun s => decide (s.1 = now)) [((now : Nat), ([] : List Row))]
      = some (now, []) := by
    simp [List.find?]
  rw [h1, h2]
  rfl

/-- Helper: the routed name is a name of the post-routing state. -/
theorem router_mem (db : DBState) (now : Nat) :
    (get_active_table db now).2 ∈ shardNames (get_active_table db now).1 := by
  unfold get_active_table
  cases hf : (sortDesc (shardNames db)).find? (fun nm => decide (rowCount db nm < 50000)) with
  | some nm =>
    exact mem_sortDesc.mp (List.mem_of_find?_eq_some hf)
  | none =>
    dsimp only
    by_cases hmem : now ∈ shardNames db
    · rw [create_of_mem db now hmem]
      exact hmem
    · rw [shardNames_create_fresh db now hmem]
      simp

/-- Helper: every shard of the post-routing state with a strictly larger
name than the routed one is full. -/
theorem router_big_full (db : DBState) (now : Nat) :
    ∀ m ∈ shardNames (get_active_table db now).1,
      (get_active_table db now).2 < m → 50000 ≤ rowCount (get_active_table db now).1 m := by
  unfold get_active_table
  cases hf : (sortDesc (shardNames db)).find? (fun nm => decide (rowCount db nm < 50000)) with
  | some nm =>
    dsimp only
    intro m hm hlt
    have := find?_sorted_big _ _ nm (sortDesc_sorted _) hf m (mem_sortDesc.mpr hm) hlt
    simpa [not_lt] using this
  | none =>
    dsimp only
    intro m hm hlt
    have hne : m ≠ now := fun heq => absurd hlt (by rw [heq]; exact lt_irrefl now)
    have hm2 : m ∈ shardNames db := by
      by_cases hmem : now ∈ shardNames db
      · rwa [create_of_mem db now hmem] at hm
      · rw [shardNames_create_fresh db now hmem] at hm
        rcases List.mem_append.mp hm with hm | hm
        · exact hm
        · simp only [List.mem_singleton] at hm
          exact absurd hm hne
    have hfull := List.find?_eq_none.mp hf m (mem_sortDesc.mpr hm2)
    simp only [decide_eq_true_eq, not_lt] at hfull
    unfold rowCount
    rw [getTable_create_ne db now m hne]
    exact hfull

/-- Helper: when a below-capacity shard is known, with all larger names
full, the router picks it and leaves the state alone. -/
theorem router_picks (db' : DBState) (now' n : Nat) (hmem : n ∈ shardNames db')
    (hlt : rowCount db' n < 50000)
    (hbig : ∀ m ∈ shardNames db', n < m → 50000 ≤ rowCount db' m) :
    get_active_table db' now' = (db', n) := by
  have hf : (sortDesc (shardNames db')).find? (fun nm => decide (rowCount db' nm < 50000))
      = some n := by
    apply find?_first_of_sorted _ _ _ (sortDesc_sorted _) (mem_sortDesc.mpr hmem)
    · simp [hlt]
    · intro m hm hlt2
      simp only [decide_eq_false_iff_not, not_lt]
      exact hbig m (mem_sortDesc.mp hm) hlt2
  unfold get_active_table
  rw [hf]

/-- Helper: `setTable` keeps the shard-name list unchanged. -/
theorem shardNames_setTable (db : DBState) (nm : Nat) (rows : List Row) :
    shardNames (setTable db nm rows) = shardNames db := by
  unfold shardNames setTable
  rw [List.map_map]
  apply List.map_congr_left
  intro s _
  by_cases h : s.1 = nm <;> simp [h]

/-- Helper, list level: replacing the entry of `nm` and looking it up
yields the replacement, whenever `nm` occurs. -/
theorem find?_replace_self (l : List (Nat × List Row)) (nm : Nat) (rows : List Row)
    (h : nm ∈ l.map Prod.fst) :
    (l.map (fun s => if s.1 = nm then (nm, rows) else s)).find? (fun s => decide (s.1 = nm))
      = some (nm, rows) := by
  induction l with
  | nil => cases h
  | cons s t ih =>
    by_cases hs : s.1 = nm
    · simp [hs, List.find?]
    · have ht : nm ∈ t.map Prod.fst := by
        rcases List.mem_cons.mp h with heq | ht
        · exact absurd heq.symm hs
        · exact ht
      simp only [List.map_cons, if_neg hs]
      rw [List.find?_cons_of_neg _ (by simp [hs])]
      exact ih ht

/-- Helper, list level: replacing the entry of `nm` does not change the
lookup of any other name. -/
theorem find?_replace_ne (l : List (Nat × List Row)) (nm : Nat) (rows : List Row)
    (m : Nat) (h : m ≠ nm) :
    (l.map (fun s => if s.1 = nm then (nm, rows) else s)).find? (fun s => decide (s.1 = m))
      = l.find? (fun s => decide (s.1 = m)) := by
  induction l with
  | nil => rfl
  | cons s t ih =>
    by_cases hs : s.1 = nm
    · simp only [List.map_cons, if_pos hs]
      rw [List.find?_cons_of_neg _ (by simp [Ne.symm h]),
        List.find?_cons_of_neg _ (by simp [hs, Ne.symm h]), ih]
    · simp only [List.map_cons, if_neg hs]
      by_cases hm : s.1 = m
      · rw [List.find?_cons_of_pos _ (by simp [hm]), List.find?_cons_of_pos _ (by simp [hm])]
      · rw [List.find?_cons_of_neg _ (by simp [hm]), List.find?_cons_of_neg _ (by simp [hm]), ih]

/-- Helper: looking up the shard just written by `setTable`. -/
theorem getTable_setTable_self (db : DBState) (nm : Nat) (rows : List Row)
    (h : nm ∈ shardNames db) :
    getTable (setTable db nm rows) nm = rows := by
  unfold getTable setTable
  rw [find?_replace_self db.shards nm rows h]

/-- Helper: `setTable` leaves every other shard's rows unchanged. -/
theorem getTable_setTable_ne (db : DBState) (nm : Nat) (rows : List Row) (m : Nat)
    (h : m ≠ nm) :
    getTable (setTable db nm rows) m = getTable db m := by
  unfold getTable setTable
  rw [find?_replace_ne db.shards nm rows m h]

/-- Helper, list level: rewriting the `nm` entry with its own looked-up
value is the identity when names are distinct. -/
theorem replace_self_of_find? (l : List (Nat × List Row)) (nm : Nat) (v : List Row)
    (hnd : (l.map Prod.fst).Nodup)
    (hv : l.find? (fun s => decide (s.1 = nm)) = some (nm, v) ∨
      l.find? (fun s => decide (s.1 = nm)) = none) :
    l.map (fun s => if s.1 = nm then (nm, v) else s) = l := by
  induction l with
  | nil => rfl
  | cons s t ih =>
    rw [List.map_cons, List.nodup_cons] at hnd
    by_cases hs : s.1 = nm
    · rcases hv with hv | hv
      · rw [List.find?_cons_of_pos _ (by simp [hs])] at hv
        have hsv : s = (nm, v) := by injection hv
        rw [List.map_cons, if_pos hs, ← hsv]
        congr 1
        have hrest : List.map (fun x : Nat × List Row => if x.1 = nm then s else x) t
            = List.map id t := by
          apply List.map_congr_left
          intro x hx
          have hxne : x.1 ≠ nm := by
            intro heq
            apply hnd.1
            rw [hs]
            exact heq ▸ List.mem_map_of_mem Prod.fst hx
          rw [if_neg hxne]
          rfl
        rw [hrest, List.map_id]
      · rw [List.find?_cons_of_pos _ (by simp [hs])] at hv
        cases hv
    · rw [List.find?_cons_of_neg _ (by simp [hs])] at hv
      rw [List.map_cons, if_neg hs, ih hnd.2 hv]

/-- Helper: writing back a shard's own rows is the identity when shard
names are distinct. -/
theorem setTable_getTable_self (db : DBState) (nm : Nat)
    (hnd : (shardNames db).Nodup) :
    setTable db nm (getTable db nm) = db := by
  unfold setTable getTable
  cases db with
  | mk shards =>
    simp only
    congr 1
    cases hf : shards.find? (fun s => decide (s.1 = nm)) with
    | some s =>
      have hs1 : s.1 = nm := by
        have := List.find?_some hf
        simpa using this
      apply replace_self_of_find? shards nm s.2 hnd
      left
      rw [hf]
      rw [← hs1]
    | none =>
      apply replace_self_of_find? shards nm [] hnd
      right
      exact hf

/-- Helper: the router preserves distinctness of shard names. -/
theorem router_nodup (db : DBState) (now : Nat) (hnd : (shardNames db).Nodup) :
    (shardNames (get_active_table db now).1).Nodup := by
  unfold get_active_table
  cases hf : (sortDesc (shardNames db)).find? (fun nm => decide (rowCount db nm < 50000)) with
  | some nm => exact hnd
  | none =>
    dsimp only
    by_cases hmem : now ∈ shardNames db
    · rw [create_of_mem db now hmem]
      exact hnd
    · rw [shardNames_create_fresh db now hmem]
      simp [List.nodup_append, hnd, hmem]

/-- Helper: the routed state changes no row count relative to `db`. -/
theorem router_rowCount (db : DBState) (now : Nat) (m : Nat) :
    rowCount (get_active_table db now).1 m = rowCount db m := by
  unfold get_active_table
  cases hf : (sortDesc (shardNames db)).find? (fun nm => decide (rowCount db nm < 50000)) with
  | some nm => rfl
  | none =>
    dsimp only
    by_cases hmem : now ∈ shardNames db
    · rw [create_of_mem db now hmem]
    · by_cases hm : m = now
      · unfold rowCount
        rw [hm, getTable_create_self_fresh db now hmem, getTable_not_mem db now hmem]
      · unfold rowCount
        rw [getTable_create_ne db now m hm]

/-- C3 amended: the router scans shard names in descending order and
returns the first with fewer than 50000 rows, leaving the state alone;
when every shard is full (or none exists), it returns the name built from
the current clock reading, creating that shard empty when the name is
fresh — but when the name collides with an existing (full) shard,
`CREATE TABLE IF NOT EXISTS` is a no-op and the full shard's name is
returned.  (The clock is `datetime.now()`; the timestamp's timezone is
abstracted into the `now` parameter.) -/
theorem get_active_table_spec (db : DBState) (now : Nat) :
    (get_active_table db now).2 ∈ shardNames (get_active_table db now).1 ∧
    (((get_active_table db now).1 = db ∧ (get_active_table db now).2 ∈ shardNames db ∧
        rowCount db (get_active_table db now).2 < 50000 ∧
        (∀ m ∈ shardNames db, (get_active_table db now).2 < m → 50000 ≤ rowCount db m)) ∨
      ((∀ m ∈ shardNames db, 50000 ≤ rowCount db m) ∧ (get_active_table db now).2 = now ∧
        ((now ∉ shardNames db ∧
            shardNames (get_active_table db now).1 = shardNames db ++ [now] ∧
            rowCount (get_active_table db now).1 now = 0 ∧
            (∀ m, m ≠ now → rowCount (get_active_table db now).1 m = rowCount db m)) ∨
          (now ∈ shardNames db ∧ (get_active_table db now).1 = db)))) := by
  refine ⟨router_mem db now, ?_⟩
  unfold get_active_table
  cases hf : (sortDesc (shardNames db)).find? (fun nm => decide (rowCount db nm < 50000)) with
  | some nm =>
    left
    refine ⟨rfl, mem_sortDesc.mp (List.mem_of_find?_eq_some hf), ?_, ?_⟩
    · have := List.find?_some hf
      simpa using this
    · intro m hm hlt
      have := find?_sorted_big _ _ nm (sortDesc_sorted _) hf m (mem_sortDesc.mpr hm) hlt
      simpa [not_lt] using this
  | none =>
    right
    dsimp only
    have hfull : ∀ m ∈ shardNames db, 50000 ≤ rowCount db m := by
      intro m hm
      have := List.find?_eq_none.mp hf m (mem_sortDesc.mpr hm)
      simpa [not_lt] using this
    refine ⟨hfull, rfl, ?_⟩
    by_cases hmem : now ∈ shardNames db
    · right
      exact ⟨hmem, create_of_mem db now hmem⟩
    · left
      refine ⟨hmem, shardNames_create_fresh db now hmem, ?_, ?_⟩
      · unfold rowCount
        rw [getTable_create_self_fresh db now hmem]
        rfl
      · intro m hm
        unfold rowCount
        rw [getTable_create_ne db now m hm]

/-- Helper: with a single shard that is exactly full and a colliding
clock reading, the router hands back the full shard's name. -/
theorem router_full_collision (t : List Row) (ht : rowCount ⟨[(5, t)]⟩ 5 = 50000) :
    get_active_table ⟨[(5, t)]⟩ 5 = (⟨[(5, t)]⟩, 5) := by
  unfold get_active_table
  have hsn : sortDesc (shardNames ⟨[(5, t)]⟩) = [5] := rfl
  rw [hsn]
  have hf : List.find?
      (fun nm => decide (rowCount ⟨[(5, t)]⟩ nm < 50000)) [5] = none := by
    rw [List.find?_eq_none]
    intro x hx
    simp only [List.mem_singleton] at hx
    subst hx
    simp [ht]
  rw [hf]
  have hmem : (5 : Nat) ∈ shardNames ⟨[(5, t)]⟩ := by
    simp [shardNames]
  rw [create_of_mem _ _ hmem]

/-- Helper: the single-shard row count is the shard's length. -/
theorem rowCount_single (nm : Nat) (t : List Row) : rowCount ⟨[(nm, t)]⟩ nm = t.length := by
  unfold rowCount getTable
  rw [List.find?_cons_of_pos _ (by simp)]

/-- C3 counterexample: with a single shard named `5` holding exactly
50000 rows and the current timestamp also reading `5`, the router's
`CREATE TABLE IF NOT EXISTS` is a no-op and `get_active_table` returns
the name of the full shard — contradicting "a shard holding exactly
50,000 rows is never returned". -/
theorem get_active_table_full_counterexample :
    get_active_table ⟨[(5, baseRows 50000)]⟩ 5 = (⟨[(5, baseRows 50000)]⟩, 5) ∧
    rowCount ⟨[(5, baseRows 50000)]⟩ 5 = 50000 := by
  have hrc : rowCount ⟨[(5, baseRows 50000)]⟩ 5 = 50000 := by
    rw [rowCount_single]
    simp [baseRows]
  exact ⟨router_full_collision _ hrc, hrc⟩

/-- Helper: positivity of a key count is existence of a row of that key. -/
theorem countKey_pos_iff (t : List Row) (k : ℚ × ℚ × ℚ) :
    0 < countKey t k ↔ ∃ x ∈ t, keyOf x = k := by
  unfold countKey
  rw [List.length_pos_iff_exists_mem]
  constructor
  · rintro ⟨x, hx⟩
    have := List.mem_filter.mp hx
    exact ⟨x, this.1, of_decide_eq_true this.2⟩
  · rintro ⟨x, hx, hk⟩
    exact ⟨x, List.mem_filter.mpr ⟨hx, decide_eq_true hk⟩⟩

/-- Helper: the duplicate test of `INSERT IGNORE` in terms of keys. -/
theorem any_sameKey_iff (t : List Row) (w : Row) :
    t.any (fun x => sameKey x w) = true ↔ ∃ x ∈ t, keyOf x = keyOf w := by
  simp [List.any_eq_true, sameKey]

/-- Helper: appending a row of a different key keeps a key count. -/
theorem countKey_append_ne (t : List Row) (w : Row) (k : ℚ × ℚ × ℚ)
    (h : keyOf w ≠ k) : countKey (t ++ [w]) k = countKey t k := by
  simp [countKey, List.filter_append, h]

/-- Helper: appending a row of the key increments its count. -/
theorem countKey_append_eq (t : List Row) (w : Row) (k : ℚ × ℚ × ℚ)
    (h : keyOf w = k) : countKey (t ++ [w]) k = countKey t k + 1 := by
  simp [countKey, List.filter_append, h]

/-- Helper: with an empty fault oracle, the loop never reports a storage
error. -/
theorem insertLoop_nil_errs_ne_dbErr (recs : List RawRecord) :
    ∀ t acc acc', insertLoop t acc [] recs ≠ .dbErr acc' := by
  induction recs with
  | nil =>
    intro t acc acc' h
    cases h
  | cons r rs ih =>
    intro t acc acc' h
    unfold insertLoop at h
    cases hp : parseRecord r with
    | none => rw [hp] at h; cases h
    | some w =>
      rw [hp] at h
      simp only [List.headD_nil, if_false, Bool.false_eq_true, List.tail_nil] at h
      cases hi : insertIgnore t w with
      | mk t2 inserted =>
        rw [hi] at h
        exact ih t2 _ acc' h

/-- Helper: full characterisation of a completed insertion loop: the
returned records `ex` extend the accumulator in order, form a subsequence
of the input, their parsed rows are exactly what was appended to the
table, every input record's key is present in the final table, and every
input record parsed. -/
theorem insertLoop_done_char (recs : List RawRecord) :
    ∀ t acc errs t' acc', insertLoop t acc errs recs = .done t' acc' →
      ∃ ex : List RawRecord, acc' = acc ++ ex ∧ ex.Sublist recs ∧
        t' = t ++ ex.filterMap parseRecord ∧
        (∀ r ∈ recs, ∀ w, parseRecord r = some w → ∃ x ∈ t', sameKey x w = true) ∧
        (∀ r ∈ recs, (parseRecord r).isSome) := by
  induction recs with
  | nil =>
    intro t acc errs t' acc' h
    injection h with h1 h2
    subst h1
    subst h2
    exact ⟨[], by simp, List.Sublist.refl _, by simp, by simp, by simp⟩
  | cons r rs ih =>
    intro t acc errs t' acc' h
    unfold insertLoop at h
    cases hp : parseRecord r with
    | none => rw [hp] at h; cases h
    | some w =>
      rw [hp] at h
      dsimp only at h
      by_cases he : errs.headD false
      · rw [if_pos he] at h; cases h
      · rw [if_neg he] at h
        unfold insertIgnore at h
        by_cases hdup : t.any (fun x => sameKey x w)
        · rw [if_pos hdup] at h
          simp only [if_false, Bool.false_eq_true] at h
          obtain ⟨ex, hacc, hsub, ht, hkeys, hparse⟩ := ih t acc errs.tail t' acc' h
          refine ⟨ex, hacc, hsub.cons r, ht, ?_, ?_⟩
          · intro r2 hr2 w2 hw2
            rcases List.mem_cons.mp hr2 with rfl | hr2
            · rw [hp] at hw2
              injection hw2 with hw2
              subst hw2
              obtain ⟨x, hx, hk⟩ := (any_sameKey_iff t w).mp hdup
              exact ⟨x, by rw [ht]; exact List.mem_append_left _ hx, decide_eq_true hk⟩
            · exact hkeys r2 hr2 w2 hw2
          · intro r2 hr2
            rcases List.mem_cons.mp hr2 with rfl | hr2
            · rw [hp]; rfl
            · exact hparse r2 hr2
        · rw [if_neg hdup] at h
          simp only [if_true] at h
          obtain ⟨ex, hacc, hsub, ht, hkeys, hparse⟩ := ih (t ++ [w]) (acc ++ [r]) errs.tail t' acc' h
          refine ⟨r :: ex, by simp [hacc], hsub.cons₂ r, ?_, ?_, ?_⟩
          · rw [ht, List.filterMap_cons, hp]
            simp
          · intro r2 hr2 w2 hw2
            rcases List.mem_cons.mp hr2 with rfl | hr2
            · rw [hp] at hw2
              injection hw2 with hw2
              subst hw2
              refine ⟨w, ?_, ?_⟩
              · rw [ht]
                exact List.mem_append_left _ (List.mem_append_right _ (List.mem_singleton.mpr rfl))
              · unfold sameKey
                exact decide_eq_true rfl
            · exact hkeys r2 hr2 w2 hw2
          · intro r2 hr2
            rcases List.mem_cons.mp hr2 with rfl | hr2
            · rw [hp]; rfl
            · exact hparse r2 hr2

/-- Helper: when the loop aborts on a storage error, the returned records
still extend the accumulator with a subsequence of the input. -/
theorem insertLoop_dbErr_char (recs : List RawRecord) :
    ∀ t acc errs acc', insertLoop t acc errs recs = .dbErr acc' →
      ∃ ex : List RawRecord, acc' = acc ++ ex ∧ ex.Sublist recs := by
  induction recs with
  | nil =>
    intro t acc errs acc' h
    cases h
  | cons r rs ih =>
    intro t acc errs acc' h
    unfold insertLoop at h
    cases hp : parseRecord r with
    | none => rw [hp] at h; cases h
    | some w =>
      rw [hp] at h
      dsimp only at h
      by_cases he : errs.headD false
      · rw [if_pos he] at h
        injection h with h1
        subst h1
        exact ⟨[], by simp, List.nil_sublist _⟩
      · rw [if_neg he] at h
        unfold insertIgnore at h
        by_cases hdup : t.any (fun x => sameKey x w)
        · rw [if_pos hdup] at h
          simp only [if_false, Bool.false_eq_true] at h
          obtain ⟨ex, hacc, hsub⟩ := ih t acc errs.tail acc' h
          exact ⟨ex, hacc, hsub.cons r⟩
        · rw [if_neg hdup] at h
          simp only [if_true] at h
          obtain ⟨ex, hacc, hsub⟩ := ih (t ++ [w]) (acc ++ [r]) errs.tail acc' h
          exact ⟨r :: ex, by simp [hacc], hsub.cons₂ r⟩

/-- Helper: when every record's key is already present in the table, the
fault-free loop inserts nothing and returns nothing new. -/
theorem insertLoop_all_dup (recs : List RawRecord) :
    ∀ t acc,
      (∀ r ∈ recs, ∀ w, parseRecord r = some w → ∃ x ∈ t, sameKey x w = true) →
      (∀ r ∈ recs, (parseRecord r).isSome) →
      insertLoop t acc [] recs = .done t acc := by
  induction recs with
  | nil => intro t acc _ _; rfl
  | cons r rs ih =>
    intro t acc hdup hparse
    obtain ⟨w, hp⟩ := Option.isSome_iff_exists.mp (hparse r (List.mem_cons_self r rs))
    have hany : t.any (fun x => sameKey x w) = true := by
      obtain ⟨x, hx, hk⟩ := hdup r (List.mem_cons_self r rs) w hp
      exact List.any_eq_true.mpr ⟨x, hx, hk⟩
    unfold insertLoop
    rw [hp]
    simp only [List.headD_nil, if_false, Bool.false_eq_true, List.tail_nil]
    unfold insertIgnore
    rw [if_pos hany]
    simp only [if_false, Bool.false_eq_true]
    exact ih t acc (fun x hx => hdup x (List.mem_cons_of_mem r hx))
      (fun x hx => hparse x (List.mem_cons_of_mem r hx))

/-- Helper: once a key is present in the table, a completed loop never
adds another row of that key, and no record of that key is ever appended
to the returned list. -/
theorem insertLoop_key_sat (recs : List RawRecord) :
    ∀ t acc errs t' acc' (k : ℚ × ℚ × ℚ),
      0 < countKey t k →
      insertLoop t acc errs recs = .done t' acc' →
      countKey t' k = countKey t k ∧
      ∀ r ∈ acc', r ∈ acc ∨ ∀ w, parseRecord r = some w → keyOf w ≠ k := by
  induction recs with
  | nil =>
    intro t acc errs t' acc' k _ h
    injection h with h1 h2
    subst h1
    subst h2
    exact ⟨rfl, fun r hr => Or.inl hr⟩
  | cons r rs ih =>
    intro t acc errs t' acc' k h0 h
    unfold insertLoop at h
    cases hp : parseRecord r with
    | none => rw [hp] at h; cases h
    | some w =>
      rw [hp] at h
      dsimp only at h
      by_cases he : errs.headD false
      · rw [if_pos he] at h; cases h
      · rw [if_neg he] at h
        unfold insertIgnore at h
        by_cases hdup : t.any (fun x => sameKey x w)
        · rw [if_pos hdup] at h
          simp only [if_false, Bool.false_eq_true] at h
          exact ih t acc errs.tail t' acc' k h0 h
        · rw [if_neg hdup] at h
          simp only [if_true] at h
          have hwk : keyOf w ≠ k := by
            intro heq
            obtain ⟨x, hx, hk⟩ := (countKey_pos_iff t k).mp h0
            exact hdup ((any_sameKey_iff t w).mpr ⟨x, hx, by rw [hk, heq]⟩)
          have h0b : 0 < countKey (t ++ [w]) k := by
            rw [countKey_append_ne t w k hwk]
            exact h0
          obtain ⟨hc, hmem⟩ := ih (t ++ [w]) (acc ++ [r]) errs.tail t' acc' k h0b h
          refine ⟨by rw [hc, countKey_append_ne t w k hwk], ?_⟩
          intro r2 hr2
          rcases hmem r2 hr2 with hin | hkey
          · rcases List.mem_append.mp hin with hin | hin
            · exact Or.inl hin
            · right
              rw [List.mem_singleton.mp hin]
              intro w2 hw2
              rw [hp] at hw2
              injection hw2 with hw2
              subst hw2
              exact hwk
          · exact Or.inr hkey

/-- Helper: with a zero key count and key-free records, the fault-free
loop keeps the key count at zero. -/
theorem insertLoop_keeps_zero (recs : List RawRecord) :
    ∀ t acc t' acc' (k : ℚ × ℚ × ℚ),
      countKey t k = 0 →
      (∀ r ∈ recs, ∀ w, parseRecord r = some w → keyOf w ≠ k) →
      insertLoop t acc [] recs = .done t' acc' →
      countKey t' k = 0 := by
  induction recs with
  | nil =>
    intro t acc t' acc' k h0 _ h
    injection h with h1 _
    subst h1
    exact h0
  | cons r rs ih =>
    intro t acc t' acc' k h0 hkeys h
    unfold insertLoop at h
    cases hp : parseRecord r with
    | none => rw [hp] at h; cases h
    | some w =>
      rw [hp] at h
      simp only [List.headD_nil, if_false, Bool.false_eq_true, List.tail_nil] at h
      have hwk : keyOf w ≠ k := hkeys r (List.mem_cons_self r rs) w hp
      unfold insertIgnore at h
      by_cases hdup : t.any (fun x => sameKey x w)
      · rw [if_pos hdup] at h
        simp only [if_false, Bool.false_eq_true] at h
        exact ih t acc t' acc' k h0 (fun x hx => hkeys x (List.mem_cons_of_mem r hx)) h
      · rw [if_neg hdup] at h
        simp only [if_true] at h
        have h0b : countKey (t ++ [w]) k = 0 := by
          rw [countKey_append_ne t w k hwk]
          exact h0
        exact ih (t ++ [w]) (acc ++ [r]) t' acc' k h0b
          (fun x hx => hkeys x (List.mem_cons_of_mem r hx)) h

/-- Helper: one fault-free loop step on an unparseable record. -/
theorem insertLoop_cons_bad (t : List Row) (acc : List RawRecord) (errs : List Bool)
    (r : RawRecord) (rs : List RawRecord) (hp : parseRecord r = none) :
    insertLoop t acc errs (r :: rs) = .parseErr := by
  unfold insertLoop
  rw [hp]

/-- Helper: one fault-free loop step on a parseable record. -/
theorem insertLoop_cons_ok (t : List Row) (acc : List RawRecord)
    (r : RawRecord) (rs : List RawRecord) (w : Row) (hp : parseRecord r = some w) :
    insertLoop t acc [] (r :: rs) =
      insertLoop (insertIgnore t w).1
        (if (insertIgnore t w).2 then acc ++ [r] else acc) [] rs := by
  conv_lhs => unfold insertLoop
  rw [hp]
  simp only [List.headD_nil, Bool.false_eq_true, if_false, List.tail_nil]

/-- Helper: splitting a fault-free loop at a list append. -/
theorem insertLoop_append_nil (xs ys : List RawRecord) :
    ∀ t acc, insertLoop t acc [] (xs ++ ys) =
      match insertLoop t acc [] xs with
      | .done t1 acc1 => insertLoop t1 acc1 [] ys
      | .dbErr a => .dbErr a
      | .parseErr => .parseErr := by
  induction xs with
  | nil => intro t acc; rfl
  | cons x xs ih =>
    intro t acc
    rw [List.cons_append]
    cases hp : parseRecord x with
    | none =>
      rw [insertLoop_cons_bad t acc [] x (xs ++ ys) hp, insertLoop_cons_bad t acc [] x xs hp]
    | some w =>
      rw [insertLoop_cons_ok t acc x (xs ++ ys) w hp, insertLoop_cons_ok t acc x xs w hp, ih]

/-- Helper: `push_data_to_db` under a working connection and router
reduces to the insertion loop over the routed table. -/
theorem push_unfold_ok (errs : List Bool) (db : DBState) (now : Nat)
    (recs : List RawRecord) :
    push_data_to_db ⟨true, true, errs⟩ db now recs =
      match insertLoop (getTable (get_active_table db now).1 (get_active_table db now).2)
          [] errs recs with
      | .done t2 newRecs =>
          .ok (setTable (get_active_table db now).1 (get_active_table db now).2 t2) newRecs
      | .dbErr newRecs => .ok (get_active_table db now).1 newRecs
      | .parseErr => .pyError (get_active_table db now).1 := rfl

/-- C10: calling the writer with an empty record list still resolves the
active shard — possibly creating a brand-new shard as a side effect, which
is exactly the state `(get_active_table db now).1` — and returns the empty
sequence; no row count changes. -/
theorem push_empty (errs : List Bool) (db : DBState) (now : Nat)
    (hnd : (shardNames db).Nodup) :
    push_data_to_db ⟨true, true, errs⟩ db now [] = .ok (get_active_table db now).1 [] ∧
    ∀ m, rowCount (get_active_table db now).1 m = rowCount db m := by
  constructor
  · rw [push_unfold_ok]
    show PushResult.ok (setTable (get_active_table db now).1 (get_active_table db now).2
      (getTable (get_active_table db now).1 (get_active_table db now).2)) [] = _
    rw [setTable_getTable_self _ _ (router_nodup db now hnd)]
  · exact fun m => router_rowCount db now m

/-- C10 witness: pushing no records on an empty store still creates the
first shard and returns the empty sequence. -/
theorem push_empty_witness :
    push_data_to_db ⟨true, true, []⟩ ⟨[]⟩ 7 [] = .ok ⟨[(7, [])]⟩ [] ∧
    rowCount ⟨[(7, [])]⟩ 3 = rowCount ⟨[]⟩ 3 := by
  have h := push_empty [] ⟨[]⟩ 7 (by simp [shardNames])
  exact ⟨h.1, h.2 3⟩


/-- C5 amended: any `ok` result's returned sequence is a subsequence of
the input, and either the call committed — the routed shard's final rows
are exactly its prior rows followed by the parsed returned records, so
the returned sequence is precisely what was newly persisted — or a
storage error struck mid-cycle and the state is exactly the routed state
(no insert persisted; only the router's table creation may have), while
the returned sequence may still name records whose inserts were rolled
back. -/
theorem push_persisted (errs : List Bool) (db : DBState) (now : Nat)
    (recs : List RawRecord) (db1 : DBState) (new1 : List RawRecord)
    (h : push_data_to_db ⟨true, true, errs⟩ db now recs = .ok db1 new1) :
    new1.Sublist recs ∧
    (getTable db1 (get_active_table db now).2 =
        getTable (get_active_table db now).1 (get_active_table db now).2 ++
          new1.filterMap parseRecord
      ∨ db1 = (get_active_table db now).1) := by
  rw [push_unfold_ok] at h
  cases hIL : insertLoop (getTable (get_active_table db now).1 (get_active_table db now).2)
      [] errs recs with
  | done t2 nr =>
    rw [hIL] at h
    injection h with hdb hnr
    obtain ⟨ex, hacc, hsub, ht, _, _⟩ :=
      insertLoop_done_char recs _ [] errs t2 nr hIL
    rw [List.nil_append] at hacc
    subst hacc
    subst hnr
    constructor
    · exact hsub
    · left
      rw [← hdb, getTable_setTable_self _ _ _ (router_mem db now)]
      exact ht
  | dbErr nr =>
    rw [hIL] at h
    injection h with hdb hnr
    obtain ⟨ex, hacc, hsub⟩ := insertLoop_dbErr_char recs _ [] errs nr hIL
    rw [List.nil_append] at hacc
    subst hacc
    subst hnr
    exact ⟨hsub, Or.inr hdb.symm⟩
  | parseErr =>
    rw [hIL] at h
    cases h

/-- C5 amended witness: a clean one-record run returns exactly the
persisted record. -/
theorem push_persisted_witness :
    List.Sublist [ra0] [ra0] ∧
    (getTable ⟨[(0, [rowA0])]⟩ (get_active_table ⟨[(0, [])]⟩ 3).2 =
        getTable (get_active_table ⟨[(0, [])]⟩ 3).1 (get_active_table ⟨[(0, [])]⟩ 3).2 ++
          ([ra0].filterMap parseRecord)
      ∨ (⟨[(0, [rowA0])]⟩ : DBState) = (get_active_table ⟨[(0, [])]⟩ 3).1) :=
  push_persisted [] ⟨[(0, [])]⟩ 3 [ra0] ⟨[(0, [rowA0])]⟩ [ra0] (by decide)

/-- C5 counterexample: with a storage error at the second `execute`, the
call returns `[ra0]` — a non-empty sequence — while the shard still holds
no rows at all: the returned sequence contains a record that was not
persisted, contradicting "the returned sequence contains exactly the
records actually persisted". -/
theorem push_error_counterexample :
    push_data_to_db ⟨true, true, [false, true]⟩ ⟨[(0, [])]⟩ 1 [ra0, rb0]
      = .ok ⟨[(0, [])]⟩ [ra0] ∧
    getTable ⟨[(0, [])]⟩ 0 = [] ∧
    ([ra0] : List RawRecord) ≠ [] := by
  refine ⟨by decide, rfl, by decide⟩

/-- C1 amended: re-running the writer with the identical record set after
a prior successful (committed) write returns the empty sequence and
leaves the state unchanged, provided the shard that absorbed the first
write is still below capacity (fewer than 50000 rows) afterwards.  (When
the first write pushes the active shard to 50000 rows or beyond, the
second run routes to a different — possibly freshly created — shard and
re-inserts every record, so the unrestricted claim fails.) -/
theorem push_idempotent (db : DBState) (now now2 : Nat) (recs : List RawRecord)
    (db1 : DBState) (new1 : List RawRecord)
    (hnd : (shardNames db).Nodup)
    (h1 : push_data_to_db ⟨true, true, []⟩ db now recs = .ok db1 new1)
    (h2 : rowCount db1 (get_active_table db now).2 < 50000) :
    push_data_to_db ⟨true, true, []⟩ db1 now2 recs = .ok db1 [] := by
  rw [push_unfold_ok] at h1
  cases hIL : insertLoop (getTable (get_active_table db now).1 (get_active_table db now).2)
      [] [] recs with
  | dbErr nr =>
    exact absurd hIL (insertLoop_nil_errs_ne_dbErr recs _ [] nr)
  | parseErr =>
    rw [hIL] at h1
    cases h1
  | done t2 nr =>
    rw [hIL] at h1
    injection h1 with hdb hnr
    obtain ⟨ex, hacc, hsub, ht, hkeys, hparse⟩ :=
      insertLoop_done_char recs _ [] [] t2 nr hIL
    have hnames : shardNames db1 = shardNames (get_active_table db now).1 := by
      rw [← hdb]
      exact shardNames_setTable _ _ _
    have hnd1 : (shardNames db1).Nodup := by
      rw [hnames]
      exact router_nodup db now hnd
    have hmem1 : (get_active_table db now).2 ∈ shardNames db1 := by
      rw [hnames]
      exact router_mem db now
    have hgt1 : getTable db1 (get_active_table db now).2 = t2 := by
      rw [← hdb]
      exact getTable_setTable_self _ _ _ (router_mem db now)
    have hbig1 : ∀ m ∈ shardNames db1, (get_active_table db now).2 < m →
        50000 ≤ rowCount db1 m := by
      intro m hm hlt
      have hne : m ≠ (get_active_table db now).2 := Nat.ne_of_gt hlt
      have hrc : rowCount db1 m = rowCount (get_active_table db now).1 m := by
        rw [← hdb]
        unfold rowCount
        rw [getTable_setTable_ne _ _ _ _ hne]
      rw [hrc]
      exact router_big_full db now m (by rw [← hnames]; exact hm) hlt
    have hroute : get_active_table db1 now2 = (db1, (get_active_table db now).2) :=
      router_picks db1 now2 _ hmem1 h2 hbig1
    have hdup2 : ∀ r ∈ recs, ∀ w, parseRecord r = some w →
        ∃ x ∈ getTable db1 (get_active_table db now).2, sameKey x w = true := by
      rw [hgt1]
      exact hkeys
    have hloop2 : insertLoop (getTable db1 (get_active_table db now).2) [] [] recs
        = .done (getTable db1 (get_active_table db now).2) [] :=
      insertLoop_all_dup recs _ [] hdup2 hparse
    rw [push_unfold_ok, hroute]
    dsimp only
    rw [hloop2]
    dsimp only
    rw [setTable_getTable_self db1 _ hnd1]

/-- C1 amended witness: a one-record write into an empty store followed
by an identical re-run returns the empty sequence. -/
theorem push_idempotent_witness :
    push_data_to_db ⟨true, true, []⟩ ⟨[(0, [rowA0])]⟩ 1 [ra0] = .ok ⟨[(0, [rowA0])]⟩ [] :=
  push_idempotent ⟨[]⟩ 0 1 [ra0] ⟨[(0, [rowA0])]⟩ [ra0] (by simp [shardNames])
    (by decide) (by decide)

/-- Helper: `baseRows n` never collides with a key whose time component
is out of range. -/
theorem baseRows_any_false (n : Nat) (w : Row)
    (hw : ∀ i : Nat, i < n → keyOf (mkRow i) ≠ keyOf w) :
    (baseRows n).any (fun x => sameKey x w) = false := by
  cases hb : (baseRows n).any (fun x => sameKey x w) with
  | false => rfl
  | true =>
    exfalso
    obtain ⟨x, hx, hkx⟩ := List.any_eq_true.mp hb
    obtain ⟨i, hi, rfl⟩ := List.mem_map.mp hx
    exact hw i (List.mem_range.mp hi) (of_decide_eq_true hkx)

/-- Helper: `baseRows n` does not contain the key of `rowA0`. -/
theorem baseRows_no_rowA0 (n : Nat) (h : n ≤ 60000) :
    (baseRows n).any (fun x => sameKey x rowA0) = false := by
  apply baseRows_any_false
  intro i hi heq
  have : (i : ℚ) = 60000 := congrArg (fun p => p.2.2) heq
  have hi2 : i = 60000 := by exact_mod_cast this
  omega

/-- Helper: `baseRows n` does not contain the key of `rowB0`. -/
theorem baseRows_no_rowB0 (n : Nat) (h : n ≤ 60001) :
    (baseRows n).any (fun x => sameKey x rowB0) = false := by
  apply baseRows_any_false
  intro i hi heq
  have : (i : ℚ) = 60001 := congrArg (fun p => p.2.2) heq
  have hi2 : i = 60001 := by exact_mod_cast this
  omega

/-- Helper: a run against a single shard of 49999 fresh rows inserts both
records into that shard, pushing it to 50001 rows. -/
theorem push_cex_first (t : List Row) (ht : t.length = 49999)
    (ha : t.any (fun x => sameKey x rowA0) = false)
    (hb : t.any (fun x => sameKey x rowB0) = false) :
    push_data_to_db ⟨true, true, []⟩ ⟨[(10, t)]⟩ 11 [ra0, rb0]
      = .ok ⟨[(10, (t ++ [rowA0]) ++ [rowB0])]⟩ [ra0, rb0] := by
  have hroute : get_active_table ⟨[(10, t)]⟩ 11 = (⟨[(10, t)]⟩, 10) := by
    apply router_picks
    · simp [shardNames]
    · rw [rowCount_single, ht]
      omega
    · intro m hm hlt
      simp only [shardNames, List.map_cons, List.map_nil, List.mem_singleton] at hm
      omega
  rw [push_unfold_ok, hroute]
  dsimp only
  have hgt : getTable ⟨[(10, t)]⟩ 10 = t := by
    unfold getTable
    rw [List.find?_cons_of_pos _ (by simp)]
  rw [hgt]
  have hp1 : parseRecord ra0 = some rowA0 := rfl
  have hp2 : parseRecord rb0 = some rowB0 := rfl
  have hi1 : insertIgnore t rowA0 = (t ++ [rowA0], true) := by
    unfold insertIgnore
    rw [ha]
    rfl
  have hi2 : insertIgnore (t ++ [rowA0]) rowB0 = ((t ++ [rowA0]) ++ [rowB0], true) := by
    unfold insertIgnore
    have : (t ++ [rowA0]).any (fun x => sameKey x rowB0) = false := by
      rw [List.any_append, hb]
      decide
    rw [this]
    rfl
  have hloop : insertLoop t [] [] [ra0, rb0]
      = .done ((t ++ [rowA0]) ++ [rowB0]) [ra0, rb0] := by
    rw [insertLoop_cons_ok t [] ra0 [rb0] rowA0 hp1, hi1]
    show insertLoop (t ++ [rowA0]) [ra0] [] [rb0] = _
    rw [insertLoop_cons_ok (t ++ [rowA0]) [ra0] rb0 [] rowB0 hp2, hi2]
    rfl
  rw [hloop]
  dsimp only
  have hset : setTable ⟨[(10, t)]⟩ 10 ((t ++ [rowA0]) ++ [rowB0])
      = ⟨[(10, (t ++ [rowA0]) ++ [rowB0])]⟩ := by
    unfold setTable
    simp
  rw [hset]

/-- Helper: a run against a single over-full shard creates a fresh shard
and re-inserts both records there. -/
theorem push_cex_second (t : List Row) (ht : t.length = 50001) :
    push_data_to_db ⟨true, true, []⟩ ⟨[(10, t)]⟩ 12 [ra0, rb0]
      = .ok ⟨[(10, t), (12, [rowA0, rowB0])]⟩ [ra0, rb0] := by
  have hroute : get_active_table ⟨[(10, t)]⟩ 12 = (⟨[(10, t), (12, [])]⟩, 12) := by
    unfold get_active_table
    have hsn : sortDesc (shardNames ⟨[(10, t)]⟩) = [10] := rfl
    rw [hsn]
    have hf : List.find? (fun nm => decide (rowCount ⟨[(10, t)]⟩ nm < 50000)) [10]
        = none := by
      rw [List.find?_eq_none]
      intro x hx
      simp only [List.mem_singleton] at hx
      subst hx
      simp [rowCount_single, ht]
    rw [hf]
    unfold create_new_table
    rw [if_neg (by simp [shardNames])]
    rfl
  rw [push_unfold_ok, hroute]
  dsimp only
  have hgt : getTable ⟨[(10, t), (12, [])]⟩ 12 = [] := by
    unfold getTable
    rw [List.find?_cons_of_neg _ (by simp), List.find?_cons_of_pos _ (by simp)]
  rw [hgt]
  have hloop : insertLoop ([] : List Row) [] [] [ra0, rb0]
      = .done [rowA0, rowB0] [ra0, rb0] := by decide
  rw [hloop]
  dsimp only
  have hset : setTable ⟨[(10, t), (12, [])]⟩ 12 [rowA0, rowB0]
      = ⟨[(10, t), (12, [rowA0, rowB0])]⟩ := by
    unfold setTable
    simp
  rw [hset]

/-- C1 counterexample: a shard holds 49999 rows; a first successful write
of two fresh records commits them (the shard now holds 50001 rows, beyond
capacity), and re-running the writer with the identical record set
returns both records again — not the empty sequence — because the router
now routes to a freshly created shard where nothing is a duplicate. -/
theorem push_rerun_counterexample :
    push_data_to_db ⟨true, true, []⟩ ⟨[(10, baseRows 49999)]⟩ 11 [ra0, rb0]
      = .ok ⟨[(10, (baseRows 49999 ++ [rowA0]) ++ [rowB0])]⟩ [ra0, rb0] ∧
    push_data_to_db ⟨true, true, []⟩ ⟨[(10, (baseRows 49999 ++ [rowA0]) ++ [rowB0])]⟩ 12
        [ra0, rb0]
      = .ok ⟨[(10, (baseRows 49999 ++ [rowA0]) ++ [rowB0]), (12, [rowA0, rowB0])]⟩
          [ra0, rb0] ∧
    ([ra0, rb0] : List RawRecord) ≠ [] := by
  have len1 : (baseRows 49999).length = 49999 := by simp [baseRows]
  have len2 : ((baseRows 49999 ++ [rowA0]) ++ [rowB0]).length = 50001 := by
    rw [List.length_append, List.length_append, len1, List.length_singleton,
      List.length_singleton]
  refine ⟨?_, ?_, by decide⟩
  · exact push_cex_first (baseRows 49999) len1
      (baseRows_no_rowA0 49999 (by omega)) (baseRows_no_rowB0 49999 (by omega))
  · exact push_cex_second ((baseRows 49999 ++ [rowA0]) ++ [rowB0]) len2

/-- C4: in a successful (committed) run whose batch contains two records
`r1` (earlier) and `r2` (later) sharing the uniqueness triple but
differing as records, where the routed shard does not yet hold the triple
and no batch record before `r1` carries it: `r1` is returned as newly
inserted, `r2` is silently skipped as a duplicate, and the shard ends up
holding exactly one row with that triple. -/
theorem push_first_wins (db : DBState) (now : Nat) (l1 l2 l3 : List RawRecord)
    (r1 r2 : RawRecord) (w1 w2 : Row) (db1 : DBState) (new1 : List RawRecord)
    (hp1 : parseRecord r1 = some w1) (hp2 : parseRecord r2 = some w2)
    (hk : keyOf w2 = keyOf w1) (hne : r1 ≠ r2)
    (hfresh : countKey (getTable (get_active_table db now).1 (get_active_table db now).2)
      (keyOf w1) = 0)
    (hl1 : ∀ r ∈ l1, ∀ w, parseRecord r = some w → keyOf w ≠ keyOf w1)
    (h1 : push_data_to_db ⟨true, true, []⟩ db now (l1 ++ (r1 :: (l2 ++ (r2 :: l3))))
      = .ok db1 new1) :
    r1 ∈ new1 ∧ r2 ∉ new1 ∧
    countKey (getTable db1 (get_active_table db now).2) (keyOf w1) = 1 := by
  rw [push_unfold_ok] at h1
  cases hIL : insertLoop (getTable (get_active_table db now).1 (get_active_table db now).2)
      [] [] (l1 ++ (r1 :: (l2 ++ (r2 :: l3)))) with
  | dbErr nr =>
    exact absurd hIL (insertLoop_nil_errs_ne_dbErr _ _ [] nr)
  | parseErr =>
    rw [hIL] at h1
    cases h1
  | done t2 nr =>
    rw [hIL] at h1
    injection h1 with hdb hnr
    rw [insertLoop_append_nil l1 (r1 :: (l2 ++ (r2 :: l3)))] at hIL
    cases hIL1 : insertLoop (getTable (get_active_table db now).1 (get_active_table db now).2)
        [] [] l1 with
    | dbErr a =>
      exact absurd hIL1 (insertLoop_nil_errs_ne_dbErr _ _ [] a)
    | parseErr =>
      rw [hIL1] at hIL
      cases hIL
    | done t1 acc1 =>
      rw [hIL1] at hIL
      dsimp only at hIL
      have hzero1 : countKey t1 (keyOf w1) = 0 :=
        insertLoop_keeps_zero l1 _ [] t1 acc1 (keyOf w1) hfresh hl1 hIL1
      have hany1 : t1.any (fun x => sameKey x w1) = false := by
        cases hb : t1.any (fun x => sameKey x w1) with
        | false => rfl
        | true =>
          exfalso
          obtain ⟨x, hx, hkx⟩ := (any_sameKey_iff t1 w1).mp hb
          have : 0 < countKey t1 (keyOf w1) := (countKey_pos_iff t1 (keyOf w1)).mpr ⟨x, hx, hkx⟩
          omega
      have hi1 : insertIgnore t1 w1 = (t1 ++ [w1], true) := by
        unfold insertIgnore
        rw [hany1]
        rfl
      rw [insertLoop_cons_ok t1 acc1 r1 (l2 ++ r2 :: l3) w1 hp1, hi1] at hIL
      have hIL2 : insertLoop (t1 ++ [w1]) (acc1 ++ [r1]) [] (l2 ++ r2 :: l3)
          = .done t2 nr := hIL
      have hone : countKey (t1 ++ [w1]) (keyOf w1) = 1 := by
        rw [countKey_append_eq t1 w1 (keyOf w1) rfl, hzero1]
      obtain ⟨hcnt, hmem2⟩ := insertLoop_key_sat (l2 ++ r2 :: l3) (t1 ++ [w1]) (acc1 ++ [r1])
        [] t2 nr (keyOf w1) (by rw [hone]; exact Nat.one_pos) hIL2
      obtain ⟨ex2, hacc2, hsub2, _, _, _⟩ :=
        insertLoop_done_char (l2 ++ r2 :: l3) _ _ [] t2 nr hIL2
      obtain ⟨ex1, hacc1, hsub1, _, _, _⟩ :=
        insertLoop_done_char l1 _ [] [] t1 acc1 hIL1
      rw [List.nil_append] at hacc1
      refine ⟨?_, ?_, ?_⟩
      · rw [← hnr, hacc2]
        exact List.mem_append_left _ (List.mem_append_right _ (List.mem_singleton.mpr rfl))
      · rw [← hnr]
        intro hr2mem
        rcases hmem2 r2 hr2mem with hin | hkey
        · rcases List.mem_append.mp hin with hin | hin
          · rw [hacc1] at hin
            have hr2l1 : r2 ∈ l1 := hsub1.mem hin
            exact hl1 r2 hr2l1 w2 hp2 hk
          · exact hne (List.mem_singleton.mp hin).symm
        · exact hkey w2 hp2 hk
      · rw [← hdb, getTable_setTable_self _ _ _ (router_mem db now), hcnt, hone]

/-- C4 witness: two records identical up to `number_of_sensors` pushed
into an empty shard — the first is returned, the second skipped, and the
shard holds exactly one row with the shared triple. -/
theorem push_first_wins_witness :
    ra0 ∈ [ra0] ∧ ra0s ∉ [ra0] ∧
    countKey (getTable ⟨[(0, [rowA0])]⟩ (get_active_table ⟨[(0, [])]⟩ 1).2) (keyOf rowA0)
      = 1 :=
  push_first_wins ⟨[(0, [])]⟩ 1 [] [] [] ra0 ra0s rowA0 rowA0s ⟨[(0, [rowA0])]⟩ [ra0]
    (by decide) (by decide) (by decide) (by decide) (by decide) (by simp) (by decide)

/-- C6: the SQL built in `main` appends the time-window `WHERE` clause
after joining the per-shard `SELECT`s with `UNION ALL`, so the clause
binds only to the last `SELECT`: with a stale row (time 0) in the older
shard and the last-hour window (cutoff 90 at `nowT` 100), the query still
returns the stale row from the older shard — it bypasses the window
predicate, while ordering (time descending) and the row cap behave as
specified. -/
theorem mainQuery_window_bug :
    mainQuery dbWin (some 10) 100 = [rowNew, rowOld] ∧
    timePred (some 10) 100 rowOld = false := by
  have hpOld : timePred (some 10) 100 rowOld = false := by
    unfold timePred rowOld
    rw [decide_eq_false_iff_not]
    norm_num
  have hpNew : timePred (some 10) 100 rowNew = true := by
    unfold timePred rowNew
    apply decide_eq_true
    norm_num
  refine ⟨?_, hpOld⟩
  unfold mainQuery dbWin
  have hu : unionRows [(0, [rowOld]), (1, [rowNew])] (timePred (some 10) 100)
      = [rowOld, rowNew] := by
    simp [unionRows, hpNew]
  rw [hu]
  have htime : ¬ ((95 : ℚ) ≤ 0) := by norm_num
  have hs : sortTimeDesc [rowOld, rowNew] = [rowNew, rowOld] := by
    unfold sortTimeDesc
    simp [List.insertionSort, List.orderedInsert, rowOld, rowNew, htime]
  rw [hs]
  rfl

end UpLight
